import Mathlib

/- Verification development for the clusterphobia clustering library.

   The Rust sources are embedded shallowly:
   - HashMap / HashSet become association lists and duplicate-free lists;
   - u16 / u32 / u64 / usize become Nat (no settled claim reaches an overflow;
     where the Rust subtraction of usize/u64 could underflow and panic in a
     reachable way, the embedding returns none, matching a debug-build panic);
   - f64 ratios become exact rationals (noted at each use; no settled claim
     depends on the outcome of such a comparison);
   - panics and fallible unwrap/expect calls are modelled with Option: a
     returned none marks a panic of the Rust code.
-/

set_option maxHeartbeats 1000000

section AssocList

variable {K V : Type} [DecidableEq K]

/-- Lookup in an association list; models HashMap::get of the Rust code. -/
def alookup : List (K × V) → K → Option V
  | [], _ => none
  | (k, v) :: rest, a => if a = k then some v else alookup rest a

/-- Remove a key from an association list; models HashMap::remove. -/
def aerase (l : List (K × V)) (a : K) : List (K × V) :=
  l.filter (fun p => p.1 ≠ a)

/-- Insert or replace a key in an association list; models HashMap::insert. -/
def ainsert (l : List (K × V)) (a : K) (b : V) : List (K × V) :=
  (a, b) :: aerase l a

end AssocList

section ClusteringModel

variable {C M : Type} [DecidableEq C] [DecidableEq M]

/-- Embeds Cluster from src/src/clustering/cluster.rs: a category plus a set
of members; the HashSet becomes a list to which add_member adds an element
only when it is not yet present. -/
structure Cluster (C M : Type) where
  category : C
  members : List M

/-- Embeds Cluster::with_member. -/
def Cluster.with_member (category : C) (member : M) : Cluster C M :=
  ⟨category, [member]⟩

/-- Embeds Cluster::len. -/
def Cluster.len (cl : Cluster C M) : Nat := cl.members.length

/-- Embeds Cluster::add_member (HashSet::insert adds the item only when absent). -/
def Cluster.add_member (cl : Cluster C M) (item : M) : Cluster C M :=
  if item ∈ cl.members then cl else ⟨cl.category, item :: cl.members⟩

/-- Embeds Cluster::remove_member (HashSet::remove). -/
def Cluster.remove_member (cl : Cluster C M) (item : M) : Cluster C M :=
  ⟨cl.category, cl.members.filter (fun m => m ≠ item)⟩

/-- Embeds Clustering from src/src/clustering/mod.rs. The two HashMaps are
association lists. The category_generator iterator is modelled by a stream
gen together with the number gen_pos of values already drawn: a call of
Iterator::next yields gen gen_pos and advances gen_pos; a none from gen
models an exhausted iterator. -/
structure Clustering (C M : Type) where
  member_to_cluster : List (M × C)
  clusters : List (C × Cluster C M)
  gen : Nat → Option C
  gen_pos : Nat

/-- Embeds Clustering::empty. -/
def Clustering.empty (gen : Nat → Option C) : Clustering C M :=
  ⟨[], [], gen, 0⟩

/-- Embeds Clustering::get_category. -/
def Clustering.get_category (cl : Clustering C M) (item : M) : Option C :=
  alookup cl.member_to_cluster item

/-- Embeds Clustering::get_cluster. -/
def Clustering.get_cluster (cl : Clustering C M) (category : C) : Option (Cluster C M) :=
  alookup cl.clusters category

/-- Embeds Clustering::contains_item. -/
def Clustering.contains_item (cl : Clustering C M) (item : M) : Bool :=
  (alookup cl.member_to_cluster item).isSome

/-- Embeds Clustering::contains_category. -/
def Clustering.contains_category (cl : Clustering C M) (category : C) : Bool :=
  (alookup cl.clusters category).isSome

/-- Embeds Clustering::are_together. -/
def Clustering.are_together (cl : Clustering C M) (item1 item2 : M) : Bool :=
  match cl.get_category item1, cl.get_category item2 with
  | some category1, some category2 => category1 = category2
  | _, _ => false

/-- Embeds Clustering::cluster_count. -/
def Clustering.cluster_count (cl : Clustering C M) : Nat := cl.clusters.length

/-- Embeds Clustering::member_count. -/
def Clustering.member_count (cl : Clustering C M) : Nat := cl.member_to_cluster.length

/-- Embeds Clustering::add_to_new_cluster. The Rust method returns
Result, embedded as Except; the panic when the category generator is
exhausted is a none. -/
def Clustering.add_to_new_cluster (cl : Clustering C M) (item : M) :
    Option (Except C C × Clustering C M) :=
  match cl.get_category item with
  | some current_category => some (.error current_category, cl)
  | none =>
    match cl.gen cl.gen_pos with
    | some category =>
      some (.ok category,
        { cl with
            clusters := ainsert cl.clusters category (Cluster.with_member category item),
            member_to_cluster := ainsert cl.member_to_cluster item category,
            gen_pos := cl.gen_pos + 1 })
    | none => none

/-- Embeds Clustering::add_to_cluster. The panic on an unknown category
("get_category inconsistent with clusters") is a none. -/
def Clustering.add_to_cluster (cl : Clustering C M) (item : M) (category : C) :
    Option (Except C C × Clustering C M) :=
  match cl.get_category item with
  | some current_category => some (.error current_category, cl)
  | none =>
    match cl.get_cluster category with
    | some cluster =>
      some (.ok category,
        { cl with
            clusters := ainsert cl.clusters category (cluster.add_member item),
            member_to_cluster := ainsert cl.member_to_cluster item category })
    | none => none

/-- Embeds Clustering::merge. The internal unwrap and expect calls become
none on failure; the ignored Result of the final add_to_cluster in the
neither-clustered branch keeps only a panic (none) as a failure. -/
def Clustering.merge (cl : Clustering C M) (item1 item2 : M) :
    Option (Bool × Clustering C M) :=
  match cl.get_category item1, cl.get_category item2 with
  | some category1, some category2 =>
    if category1 = category2 then some (false, cl)
    else
      match cl.get_cluster category2 with
      | none => none
      | some cluster2 =>
        let cluster2_members := cluster2.members
        let new_member_map :=
          cluster2_members.foldl (fun acc m => ainsert acc m category1) cl.member_to_cluster
        match cl.get_cluster category1 with
        | none => none
        | some cluster1 =>
          let cluster1_grown :=
            cluster2_members.foldl (fun k m => Cluster.add_member k m) cluster1
          some (true,
            { cl with
                member_to_cluster := new_member_map,
                clusters := aerase (ainsert cl.clusters category1 cluster1_grown) category2 })
  | some category1, none =>
    match cl.add_to_cluster item2 category1 with
    | some (.ok _, cl2) => some (true, cl2)
    | _ => none
  | none, some category2 =>
    match cl.add_to_cluster item1 category2 with
    | some (.ok _, cl2) => some (true, cl2)
    | _ => none
  | none, none =>
    match cl.add_to_new_cluster item1 with
    | some (.ok new_category, cl1) =>
      match cl1.add_to_cluster item2 new_category with
      | some (_, cl2) => some (true, cl2)
      | none => none
    | _ => none

/-- Embeds Clustering::remove_item. The expect calls become none on failure. -/
def Clustering.remove_item (cl : Clustering C M) (item : M) :
    Option (Bool × Clustering C M) :=
  match cl.get_category item with
  | none => some (false, cl)
  | some category =>
    match cl.get_cluster category with
    | none => none
    | some cluster =>
      let cluster2 := cluster.remove_member item
      let clusters2 :=
        if cluster2.members.isEmpty then aerase cl.clusters category
        else ainsert cl.clusters category cluster2
      if (alookup cl.member_to_cluster item).isSome then
        some (true,
          { cl with
              clusters := clusters2,
              member_to_cluster := aerase cl.member_to_cluster item })
      else none

/-- Embeds Clustering::move_item. -/
def Clustering.move_item (cl : Clustering C M) (item : M) (new_category : C) :
    Option (Bool × Clustering C M) :=
  if ¬ cl.contains_category new_category then some (false, cl)
  else
    match cl.get_category item with
    | some current_category =>
      if current_category = new_category then some (false, cl)
      else
        match cl.remove_item item with
        | some (_, cl1) =>
          match cl1.add_to_cluster item new_category with
          | some (.ok _, cl2) => some (true, cl2)
          | _ => none
        | none => none
    | none =>
      match cl.add_to_cluster item new_category with
      | some (.ok _, cl2) => some (true, cl2)
      | _ => none

/-- Embeds integer_clustering: categories are drawn from 0, 1, 2, ... -/
def integer_clustering : Clustering Nat Nat :=
  Clustering.empty (fun n => some n)

end ClusteringModel

section Parsing

/-- Decimal digit value, for the usize parser model. -/
def digitVal (c : Char) : Option Nat :=
  if '0' ≤ c ∧ c ≤ '9' then some (c.toNat - '0'.toNat) else none

/-- Models str::parse::<usize> of the Rust standard library for the inputs
from_delimited_string feeds it: a non-empty string of decimal digits parses
to its value; an empty or malformed segment is none (the unwrap in
from_delimited_string turns that into a panic). -/
def parse_usize (s : List Char) : Option Nat :=
  if s.isEmpty then none
  else s.foldlM (fun acc c => (digitVal c).map (fun d => acc * 10 + d)) 0

/-- Embeds from_delimited_string from src/src/clustering/mod.rs. The Rust
&str is modelled as a list of characters; List.splitOn models str::split
(both keep empty segments). The expect calls on the cluster operations
become none on either an Err result or a panic. -/
def from_delimited_string (clustering_string : List Char) : Option (Clustering Nat Nat) :=
  (clustering_string.splitOn ';').foldlM
    (fun cl cluster_string =>
      ((cluster_string.splitOn ',').foldlM
        (fun (st : Clustering Nat Nat × Option Nat) member_string =>
          match parse_usize member_string with
          | none => none
          | some member =>
            match st.2 with
            | some cluster_id =>
              match st.1.add_to_cluster member cluster_id with
              | some (.ok _, cl2) => some (cl2, some cluster_id)
              | _ => none
            | none =>
              match st.1.add_to_new_cluster member with
              | some (.ok new_id, cl2) => some (cl2, some new_id)
              | _ => none)
        (cl, none)).map Prod.fst)
    integer_clustering

end Parsing

section BCubedModel

/-- One step of BCubed::tally_squares: the state is the map of tallies so
far plus the running sum of squares. The HashMap becomes a total function
with default 0: a vacant entry of the Rust map is a count of 0, and the
Vacant arm's contribution of 1 equals 2*0+1, so the Occupied and Vacant
arms collapse to one uniform update rule. -/
def tally_step {C : Type} [DecidableEq C] (st : (C → Nat) × Nat) (category : C) :
    (C → Nat) × Nat :=
  (fun c => if c = category then st.1 category + 1 else st.1 c,
   st.2 + (2 * st.1 category + 1))

/-- Embeds BCubed::tally_squares from src/src/clustering/bcubed.rs. -/
def tally_squares {C : Type} [DecidableEq C] (categories : List C) : Nat :=
  (categories.foldl tally_step (fun _ => 0, 0)).2

end BCubedModel

section SingleLinkageModel

/-- Embeds LinkageResult from src/src/clustering/single_linkage.rs. The u64
and u32 fields become Nat; no settled claim reaches a u32 overflow. -/
structure LinkageResult where
  linkage_square_distance : Nat
  count_of_too_large_distances : Nat
  large_cluster_count : Nat
  outlier_cluster_count : Nat
  outlier_count : Nat
deriving DecidableEq

/-- Embeds LinkageResult::new. -/
def LinkageResult.new : LinkageResult := ⟨0, 0, 0, 0, 0⟩

/-- Modelled from the spec: Point of the external hilbert crate — a stable
integer id plus a coordinate vector, with square_distance the exact integer
squared Euclidean distance (spec section 3: square_distance is an exact
non-negative integer). -/
structure Point where
  id : Nat
  coords : List Int

/-- Modelled from the spec: Point::square_distance of the hilbert crate. -/
def Point.square_distance (p q : Point) : Nat :=
  ((p.coords.zip q.coords).map (fun ab => ((ab.1 - ab.2) ^ 2).toNat)).sum

/-- Embeds AdjacentPairDistance. -/
structure AdjacentPairDistance where
  square_distance : Nat
  first_index : Nat
  second_index : Nat
  first_id : Nat
  second_id : Nat
deriving DecidableEq

/-- Embeds the Ord instance of AdjacentPairDistance: lexicographic on
(square_distance, first_index, second_index). -/
def apdLE (a b : AdjacentPairDistance) : Bool :=
  decide (a.square_distance < b.square_distance ∨
    (a.square_distance = b.square_distance ∧
      (a.first_index < b.first_index ∨
        (a.first_index = b.first_index ∧ a.second_index ≤ b.second_index))))

/-- Embeds AdjacentPairDistance::all_pairs: one record per consecutive pair,
with first_index the position of the first point of the pair. -/
def all_pairs (points : List Point) : List AdjacentPairDistance :=
  if points.length ≤ 1 then []
  else
    (points.zip points.tail).enum.map
      (fun ie =>
        ⟨Point.square_distance ie.2.1 ie.2.2, ie.1, ie.1 + 1, ie.2.1.id, ie.2.2.id⟩)

/-- Embeds the SingleLinkage configuration struct. -/
structure SingleLinkage where
  bits_per_dimension : Nat
  need_to_sort_by_hilbert_curve : Bool
  minimum_cluster_count : Nat
  noise_skip_by : Nat
  outlier_cluster_size : Nat
  sort_distances_completely : Bool
  lowest_index_for_checking_growth_ratio : Nat

/-- Floor of the square root: the largest k with k * k ≤ n, computed in a
structurally recursive way (the theorem floor_sqrt_eq below checks it
against Mathlib's Nat.sqrt). -/
def floor_sqrt (n : Nat) : Nat :=
  ((List.range (n + 1)).filter (fun k => k * k ≤ n)).foldr max 0

/-- Embeds SingleLinkage::new. The Rust code computes sqrt(N) in f64,
halves it, floors 10 as a minimum, and truncates to u16; for u32 inputs the
correctly rounded f64 square root never rounds across the next integer
half, so the truncated result equals max 10 (floor_sqrt N / 2). -/
def SingleLinkage.new (num_points : Nat) (bits_per_dimension : Nat) : SingleLinkage :=
  { bits_per_dimension := bits_per_dimension
    minimum_cluster_count := max 10 (floor_sqrt num_points / 2)
    need_to_sort_by_hilbert_curve := false
    noise_skip_by := 5
    outlier_cluster_size := 10
    sort_distances_completely := true
    lowest_index_for_checking_growth_ratio := num_points / 2 }

/-- Embeds DistanceGrowthStats. The two f64 ratio fields become exact
rationals; see accumulate. -/
structure DistanceGrowthStats where
  index_of_maximum_increase : Nat
  index_of_maximum_ratio : Nat
  index_of_maximum_increase_and_ratio : Nat
  max_increase_alone : Nat
  max_ratio_alone : ℚ
  max_increase_paired : Nat
  max_ratio_paired : ℚ
deriving DecidableEq

/-- Embeds DistanceGrowthStats::new. -/
def DistanceGrowthStats.new : DistanceGrowthStats := ⟨0, 0, 0, 0, 0, 0, 0⟩

/-- Embeds DistanceGrowthStats::accumulate. The f64 quotient
new_value / previous_value is modelled as an exact rational; an f64 division
could compare differently from the exact value in borderline cases, but no
settled claim depends on the outcome of these comparisons (claim C1 below
holds for every DistanceGrowthStats value). The u64 subtraction producing
delta is performed before the previous_value == 0 test, exactly as in the
source; the caller feeds ascending sorted values, so it never underflows. -/
def DistanceGrowthStats.accumulate (st : DistanceGrowthStats) (index : Nat)
    (previous_value new_value : Nat) : DistanceGrowthStats :=
  let delta := new_value - previous_value
  if previous_value = 0 then st
  else
    let ratio : ℚ := (new_value : ℚ) / (previous_value : ℚ)
    let inc_high : Bool := decide (delta > st.max_increase_alone)
    let ratio_high : Bool := decide (ratio > st.max_ratio_alone)
    let st1 :=
      if inc_high then
        { st with max_increase_alone := delta, index_of_maximum_increase := index }
      else st
    let st2 :=
      if ratio_high then
        { st1 with max_ratio_alone := ratio, index_of_maximum_ratio := index }
      else st1
    if inc_high && ratio_high then
      { st2 with
          index_of_maximum_increase_and_ratio := index,
          max_increase_paired := delta,
          max_ratio_paired := ratio }
    else st2

/-- Embeds DistanceGrowthStats::get_index_of_max_change. The usize
subtraction i_high - i_low_paired underflows (a debug-build panic) when
i_high < i_low_paired, modelled as none; all integer division is the usize
flooring division of the source. -/
def DistanceGrowthStats.get_index_of_max_change (st : DistanceGrowthStats)
    (i_low_paired i_high : Nat) : Option Nat :=
  if i_high < i_low_paired then none
  else
    let i_conservative := i_low_paired + (i_high - i_low_paired) * 3 / 4
    some (
      if st.index_of_maximum_increase_and_ratio > i_high then i_high
      else if st.index_of_maximum_increase_and_ratio > i_conservative then
        st.index_of_maximum_increase_and_ratio
      else if st.index_of_maximum_ratio < i_conservative then
        max (min i_high st.index_of_maximum_increase) i_low_paired
      else if st.index_of_maximum_increase < i_conservative then
        max (min i_high st.index_of_maximum_ratio) i_low_paired
      else min (min i_high st.index_of_maximum_increase) st.index_of_maximum_ratio)

/-- One step of the scan inside SingleLinkage::estimate_cluster_counts: the
state is (start_index_for_cluster, linkage accumulator). The usize
subtractions computing cluster_size are Nat subtractions; with indices in
curve order they never underflow. -/
def estimate_step (cfg : SingleLinkage) (final_id linkage_square_distance : Nat)
    (st : Nat × LinkageResult) (pair : AdjacentPairDistance) : Nat × LinkageResult :=
  let start_index_for_cluster := st.1
  let linkage := st.2
  if pair.square_distance > linkage_square_distance then
    let cluster_size := pair.second_index - start_index_for_cluster
    let linkage1 :=
      if cluster_size ≤ cfg.outlier_cluster_size then
        { linkage with
            outlier_cluster_count := linkage.outlier_cluster_count + 1,
            outlier_count := linkage.outlier_count + cluster_size }
      else { linkage with large_cluster_count := linkage.large_cluster_count + 1 }
    let linkage2 :=
      { linkage1 with
          count_of_too_large_distances := linkage1.count_of_too_large_distances + 1 }
    let linkage3 :=
      if pair.second_id = final_id then
        { linkage2 with
            outlier_cluster_count := linkage2.outlier_cluster_count + 1,
            outlier_count := linkage2.outlier_count + 1 }
      else linkage2
    (pair.second_index, linkage3)
  else if pair.second_id = final_id then
    let cluster_size := pair.second_index - start_index_for_cluster + 1
    let linkage1 :=
      if cluster_size ≤ cfg.outlier_cluster_size then
        { linkage with
            outlier_cluster_count := linkage.outlier_cluster_count + 1,
            outlier_count := linkage.outlier_count + cluster_size }
      else { linkage with large_cluster_count := linkage.large_cluster_count + 1 }
    (start_index_for_cluster, linkage1)
  else st

/-- Embeds SingleLinkage::estimate_cluster_counts. The explicit panic on a
zero linkage_square_distance and the last().unwrap() panic on an empty
distance sequence are both none. -/
def SingleLinkage.estimate_cluster_counts (cfg : SingleLinkage)
    (hilbert_sorted_distances : List AdjacentPairDistance)
    (linkage_square_distance : Nat) : Option LinkageResult :=
  if linkage_square_distance = 0 then none
  else
    match hilbert_sorted_distances.getLast? with
    | none => none
    | some last_pair =>
      some ((hilbert_sorted_distances.foldl
        (estimate_step cfg last_pair.second_id linkage_square_distance)
        (0, { LinkageResult.new with linkage_square_distance := linkage_square_distance })).2)

/-- Embeds SingleLinkage::find_by_sorting. Rust's stable default sort under
the lexicographic Ord of AdjacentPairDistance becomes a stable insertion
sort: both produce the unique stable sorted permutation of the input. The
usize subtraction points.len() - minimum_cluster_count underflows (a
debug-build panic) when there are fewer points than minimum_cluster_count,
modelled as none; the two indexing operations inside the loop are always in
bounds for the loop's range and use getD. -/
def SingleLinkage.find_by_sorting (cfg : SingleLinkage) (points : List Point)
    (distances : List AdjacentPairDistance) : Option LinkageResult :=
  let sorted_distances := List.insertionSort (fun a b => apdLE a b = true) distances
  if points.length < cfg.minimum_cluster_count then none
  else
    let conservative_high_index := points.length - cfg.minimum_cluster_count
    let start_index := 1 + cfg.noise_skip_by + cfg.lowest_index_for_checking_growth_ratio
    let stats := (List.range' start_index (conservative_high_index - start_index)).foldl
      (fun st i =>
        st.accumulate i
          ((sorted_distances.getD (i - 1 - cfg.noise_skip_by) ⟨0, 0, 0, 0, 0⟩).square_distance)
          ((sorted_distances.getD i ⟨0, 0, 0, 0, 0⟩).square_distance))
      DistanceGrowthStats.new
    match stats.get_index_of_max_change
        cfg.lowest_index_for_checking_growth_ratio conservative_high_index with
    | none => none
    | some index_to_use =>
      if h : index_to_use < sorted_distances.length then
        cfg.estimate_cluster_counts distances
          (sorted_distances.get ⟨index_to_use, h⟩).square_distance
      else none

/-- Embeds SingleLinkage::find. The branch that sorts by the Hilbert curve
calls the external hilbert crate and is not modelled (none); the binning
branch (find_by_binning) is likewise not modelled. The default
configuration produced by SingleLinkage::new takes neither branch, and no
theorem below relies on either. -/
def SingleLinkage.find (cfg : SingleLinkage) (points : List Point) : Option LinkageResult :=
  if cfg.need_to_sort_by_hilbert_curve then none
  else
    let distances := all_pairs points
    if cfg.sort_distances_completely then cfg.find_by_sorting points distances
    else none

end SingleLinkageModel

section DistanceBinModel

/-- Embeds DistanceBin (the Range bounds become a start and an end). -/
structure DistanceBin where
  bounds_start : Nat
  bounds_end : Nat
  lowest_value_added : Nat
  highest_value_added : Nat
  values_added : List Nat
deriving DecidableEq

/-- Embeds DistanceBin::new. -/
def DistanceBin.new (lo hi : Nat) : DistanceBin := ⟨lo, hi, hi, lo, []⟩

/-- Embeds DistanceBin::len. -/
def DistanceBin.len (b : DistanceBin) : Nat := b.values_added.length

/-- Embeds DistanceBin::merge. The explicit panic (the higher_bin argument
must lie entirely above the receiver) is a none. -/
def DistanceBin.merge (self higher_bin : DistanceBin) : Option DistanceBin :=
  if higher_bin.bounds_start < self.bounds_end then none
  else some
    { self with
        bounds_end := higher_bin.bounds_end,
        values_added :=
          if 0 < higher_bin.len then self.values_added ++ higher_bin.values_added
          else self.values_added,
        highest_value_added :=
          if 0 < higher_bin.len then higher_bin.highest_value_added
          else self.highest_value_added }

/-- Loop of DistanceBin::consolidate: acc holds the bins already pushed and
the optional third argument is the hold_bin. Note the receiver and argument
of merge are exactly as in the source: bin.merge(hold_bin) asks the held
earlier (lower) bin to play the higher_bin role. -/
def DistanceBin.consolidate_go (minimum_size : Nat) :
    List DistanceBin → List DistanceBin → Option DistanceBin → Option (List DistanceBin)
  | [], acc, hold => some (acc ++ hold.toList)
  | bin :: rest, acc, some hold_bin =>
    match bin.merge hold_bin with
    | none => none
    | some merged =>
      if minimum_size ≤ merged.len then consolidate_go minimum_size rest (acc ++ [merged]) none
      else consolidate_go minimum_size rest acc (some merged)
  | bin :: rest, acc, none =>
    if minimum_size ≤ bin.len then consolidate_go minimum_size rest (acc ++ [bin]) none
    else consolidate_go minimum_size rest acc (some bin)

/-- Embeds DistanceBin::consolidate. -/
def DistanceBin.consolidate (original_bins : List DistanceBin) (minimum_size : Nat) :
    Option (List DistanceBin) :=
  DistanceBin.consolidate_go minimum_size original_bins [] none

end DistanceBinModel

section ClaimSupportDefs

/-- Brute-force pairwise counting: for each position, the number of
positions (itself included) holding the same category — the number of
ordered pairs of positions with equal categories. -/
def pair_matches {C : Type} [DecidableEq C] (l : List C) : Nat :=
  (l.map (fun a => l.count a)).sum

/-- Sum over each distinct category of the square of its occurrence count. -/
def sum_of_squared_counts {C : Type} [DecidableEq C] (l : List C) : Nat :=
  l.toFinset.sum (fun c => (l.count c) ^ 2)

/-- Maximum square_distance present in a sequence of adjacent pair distances. -/
def max_pair_distance (pairs : List AdjacentPairDistance) : Nat :=
  (pairs.map (fun p => p.square_distance)).foldr max 0

/-- Clamp of an index to the closed interval from low to high. -/
def clampN (x low high : Nat) : Nat := min (max x low) high

/-- The elbow resolution rule in the words of claim C5: conservative is the
exact real number low + 0.75 * (high - low), and the final branch takes the
smaller of the delta index and the ratio index. -/
def resolveSpecExact (st : DistanceGrowthStats) (low high : Nat) : Nat :=
  let conservative : ℚ := (low : ℚ) + 3 / 4 * ((high : ℚ) - (low : ℚ))
  if (st.index_of_maximum_increase_and_ratio : ℚ) > (high : ℚ) then high
  else if (st.index_of_maximum_increase_and_ratio : ℚ) > conservative then
    st.index_of_maximum_increase_and_ratio
  else if (st.index_of_maximum_ratio : ℚ) < conservative then
    clampN st.index_of_maximum_increase low high
  else if (st.index_of_maximum_increase : ℚ) < conservative then
    clampN st.index_of_maximum_ratio low high
  else min st.index_of_maximum_increase st.index_of_maximum_ratio

/-- The elbow resolution rule as amended for claim C5: conservative is the
flooring integer computation low + floor(3 * (high - low) / 4) of the
source, and the final branch additionally caps the result at high. -/
def resolveSpecFloor (st : DistanceGrowthStats) (low high : Nat) : Nat :=
  let conservative := low + 3 * (high - low) / 4
  if st.index_of_maximum_increase_and_ratio > high then high
  else if st.index_of_maximum_increase_and_ratio > conservative then
    st.index_of_maximum_increase_and_ratio
  else if st.index_of_maximum_ratio < conservative then
    clampN st.index_of_maximum_increase low high
  else if st.index_of_maximum_increase < conservative then
    clampN st.index_of_maximum_ratio low high
  else min high (min st.index_of_maximum_increase st.index_of_maximum_ratio)

/-- The five mutating operations of Clustering, as one datatype so that a
single statement can quantify over every mutating operation. -/
inductive ClusteringOp (C M : Type) where
  | addNew (item : M)
  | addTo (item : M) (category : C)
  | mergeItems (item1 item2 : M)
  | moveItem (item : M) (category : C)
  | removeItem (item : M)

/-- Runs one mutating operation, keeping only the resulting Clustering; a
none marks a panic of the Rust code. -/
def applyOp {C M : Type} [DecidableEq C] [DecidableEq M]
    (op : ClusteringOp C M) (cl : Clustering C M) : Option (Clustering C M) :=
  match op with
  | .addNew item => (cl.add_to_new_cluster item).map (fun p => p.2)
  | .addTo item category => (cl.add_to_cluster item category).map (fun p => p.2)
  | .mergeItems item1 item2 => (cl.merge item1 item2).map (fun p => p.2)
  | .moveItem item category => (cl.move_item item category).map (fun p => p.2)
  | .removeItem item => (cl.remove_item item).map (fun p => p.2)

/-- Mutual consistency of the two maps of a Clustering: an item maps to a
category exactly when a Cluster with that category exists and contains it. -/
def Consistent {C M : Type} [DecidableEq C] [DecidableEq M] (cl : Clustering C M) : Prop :=
  ∀ m c, cl.get_category m = some c ↔
    ∃ k, cl.get_cluster c = some k ∧ m ∈ k.members

/-- No empty Cluster is retained in a Clustering. -/
def NoEmpty {C M : Type} [DecidableEq C] [DecidableEq M] (cl : Clustering C M) : Prop :=
  ∀ c k, cl.get_cluster c = some k → k.members ≠ []

/-- The invariant of claim C2. -/
def ClusterInv {C M : Type} [DecidableEq C] [DecidableEq M] (cl : Clustering C M) : Prop :=
  Consistent cl ∧ NoEmpty cl

/-- The category supplier assumption of the data model (spec section 3,
Lifecycle): every category the generator can still produce is fresh — no
live Cluster carries it — and the generator never repeats a category it
can still produce. -/
def FreshGen {C M : Type} [DecidableEq C] [DecidableEq M] (cl : Clustering C M) : Prop :=
  (∀ k c, cl.gen_pos ≤ k → cl.gen k = some c → cl.get_cluster c = none) ∧
  (∀ j k c, cl.gen_pos ≤ j → j < k → cl.gen j = some c → cl.gen k ≠ some c)

/-- Twenty one-dimensional points with strictly growing gaps, a concrete
input on which SingleLinkage::find succeeds. -/
def points20 : List Point :=
  (List.range 20).map (fun i => ⟨i, [((i * (i + 1) / 2 : Nat) : Int)]⟩)

end ClaimSupportDefs

section AssocLemmas

variable {K V : Type} [DecidableEq K]

theorem alookup_aerase (l : List (K × V)) (a x : K) :
    alookup (aerase l a) x = if x = a then none else alookup l x := by
  induction l with
  | nil => simp [alookup, aerase]
  | cons p rest ih =>
    obtain ⟨k, v⟩ := p
    by_cases hka : k = a
    · subst hka
      by_cases hxk : x = k <;> simp [alookup, aerase, hxk, ih] at * <;> simp [ih, hxk]
    · by_cases hxk : x = k
      · subst hxk
        simp [aerase, alookup, hka, Ne.symm hka]
      · simp [aerase, alookup, hka, hxk] at *
        simpa [aerase, hxk] using ih

theorem alookup_ainsert (l : List (K × V)) (a x : K) (b : V) :
    alookup (ainsert l a b) x = if x = a then some b else alookup l x := by
  by_cases hxa : x = a <;> simp [ainsert, alookup, hxa, alookup_aerase]

end AssocLemmas

section EasyClaims

/-- Claim C3 (code_bug): DistanceBin::consolidate is claimed to return,
without panicking, contiguous bins all of which (except possibly the last)
meet the minimum_size floor. On the concrete input of an empty bin over
bounds 0..2 followed by a bin over bounds 2..4 holding five values, with
minimum_size 5, the first bin is held for merging and the loop calls
bin.merge(hold_bin) with the held lower bin in the higher_bin position;
merge's guard (higher_bin.bounds.start < self.bounds.end, here 0 < 4)
panics, so consolidate panics (none) instead of consolidating. -/
theorem claim_C3_consolidate_panics_when_merging :
    DistanceBin.consolidate
      [DistanceBin.new 0 2,
       { DistanceBin.new 2 4 with
           lowest_value_added := 3, highest_value_added := 3,
           values_added := [3, 3, 3, 3, 3] }] 5 = none := by
  decide

/-- Claim C4, counterexample: on the empty integer clustering, with item 5
absent and category 3 having no Cluster, add_to_cluster(5, 3) panics (none)
— it does not return an ordinary non-fatal discriminated result as the
claim states. -/
theorem claim_C4_counterexample :
    Clustering.add_to_cluster integer_clustering 5 3 = none := by
  rfl

/-- Claim C4 as amended: for every Clustering, every absent item and every
category with no Cluster, add_to_cluster(item, category) panics — the Rust
code reaches the explicit panic, matching its own doc comment — and hence
produces no mutated Clustering at all. -/
theorem claim_C4_add_to_cluster_unknown_category_panics
    {C M : Type} [DecidableEq C] [DecidableEq M]
    (cl : Clustering C M) (item : M) (category : C)
    (hitem : cl.get_category item = none)
    (hcat : cl.get_cluster category = none) :
    cl.add_to_cluster item category = none := by
  unfold Clustering.add_to_cluster
  rw [hitem, hcat]

/-- Witness for claim C4's amended theorem at the concrete input of the
counterexample. -/
theorem claim_C4_witness :
    Clustering.get_category (C := Nat) integer_clustering 5 = none ∧
    Clustering.get_cluster (M := Nat) integer_clustering 3 = none ∧
    Clustering.add_to_cluster integer_clustering 5 3 = none :=
  ⟨rfl, rfl, claim_C4_add_to_cluster_unknown_category_panics integer_clustering 5 3 rfl rfl⟩

/-- Claim C8: from_delimited_string on "1,2,3;4,5,6;7,8,9;10" yields four
clusters over ten members, with categories assigned sequentially from 0 in
first-encounter order, so that members 4, 5 and 6 share category 1. -/
theorem claim_C8_from_delimited_string :
    ((from_delimited_string "1,2,3;4,5,6;7,8,9;10".data).map
      (fun cl => (cl.cluster_count, cl.member_count, cl.get_category 1,
        cl.get_category 4, cl.get_category 5, cl.get_category 6, cl.get_category 10)))
    = some (4, 10, some 0, some 1, some 1, some 1, some 3) := by
  rfl

/-- Claim C9: estimate_cluster_counts panics on an empty adjacent-pair
sequence even with a strictly positive threshold — after passing the zero
threshold guard it unconditionally unwraps the last element. -/
theorem claim_C9_estimate_empty_panics (cfg : SingleLinkage) (d : Nat) (hd : 0 < d) :
    cfg.estimate_cluster_counts [] d = none := by
  unfold SingleLinkage.estimate_cluster_counts
  simp [Nat.pos_iff_ne_zero.mp hd]

/-- Witness for claim C9 at a concrete configuration and threshold. -/
theorem claim_C9_witness :
    0 < 7 ∧ (SingleLinkage.new 20 4).estimate_cluster_counts [] 7 = none :=
  ⟨by decide, claim_C9_estimate_empty_panics (SingleLinkage.new 20 4) 7 (by decide)⟩

end EasyClaims

section ClaimC5

/-- Claim C5, counterexample: at low = 0, high = 2 and the stats state with
delta index 2, ratio index 1 and paired index 0, the claimed rule (with the
exact conservative value 0 + 0.75 * 2 = 1.5) takes the ratio-below-
conservative branch (1 < 1.5) and returns the clamped delta index 2, while
the code floors the conservative value to 1, so 1 < 1 fails, the delta
index 2 < 1 fails, and the final branch returns min(min(2, 2), 1) = 1. -/
theorem claim_C5_counterexample :
    DistanceGrowthStats.get_index_of_max_change ⟨2, 1, 0, 0, 0, 0, 0⟩ 0 2 = some 1 ∧
    resolveSpecExact ⟨2, 1, 0, 0, 0, 0, 0⟩ 0 2 = 2 := by
  constructor
  · decide
  · norm_num [resolveSpecExact, clampN]

/-- Claim C5 as amended: for low ≤ high, get_index_of_max_change implements
the elbow resolution rule with conservative = low + floor(3*(high-low)/4)
(the integer flooring division of the source, not the exact 0.75 multiple)
and with the final catch-all branch returning the smaller of the delta
index and the ratio index additionally capped at high. -/
theorem claim_C5_resolution_rule (st : DistanceGrowthStats) (low high : Nat)
    (h : low ≤ high) :
    st.get_index_of_max_change low high = some (resolveSpecFloor st low high) := by
  simp only [DistanceGrowthStats.get_index_of_max_change, resolveSpecFloor, clampN]
  rw [if_neg (not_lt.mpr h)]
  rw [Nat.mul_comm (high - low) 3]
  congr 1
  split_ifs <;> omega

/-- Witness for claim C5's amended theorem at a concrete window and state. -/
theorem claim_C5_witness :
    (0 : Nat) ≤ 4 ∧
    DistanceGrowthStats.get_index_of_max_change ⟨2, 1, 0, 0, 0, 0, 0⟩ 0 4
      = some (resolveSpecFloor ⟨2, 1, 0, 0, 0, 0, 0⟩ 0 4) :=
  ⟨by decide, claim_C5_resolution_rule ⟨2, 1, 0, 0, 0, 0, 0⟩ 0 4 (by decide)⟩

end ClaimC5

section ClaimC10

/-- Claim C10: for every Clustering whose category supplier can still
produce a category (the data model's effectively-unbounded supplier,
spec section 3) and every item x not present, merge(x, x) takes the
neither-clustered branch: it returns true, puts x into a fresh singleton
Cluster (the duplicate second insertion returns an ignored Err), after
which are_together(x, x) holds and a second merge(x, x) returns false
without changing the Clustering. -/
theorem claim_C10_merge_unclustered_self
    {C M : Type} [DecidableEq C] [DecidableEq M]
    (cl : Clustering C M) (x : M) (c : C)
    (hx : cl.get_category x = none)
    (hgen : cl.gen cl.gen_pos = some c) :
    ∃ cl2 : Clustering C M,
      cl.merge x x = some (true, cl2) ∧
      cl2.get_cluster c = some (Cluster.with_member c x) ∧
      cl2.get_category x = some c ∧
      cl2.are_together x x = true ∧
      cl2.merge x x = some (false, cl2) := by
  have hxa : alookup cl.member_to_cluster x = none := hx
  refine ⟨{ cl with
      clusters := ainsert cl.clusters c (Cluster.with_member c x),
      member_to_cluster := ainsert cl.member_to_cluster x c,
      gen_pos := cl.gen_pos + 1 }, ?_, ?_, ?_, ?_, ?_⟩
  · simp [Clustering.merge, Clustering.add_to_new_cluster, Clustering.add_to_cluster,
      Clustering.get_category, Clustering.get_cluster, hxa, hgen, alookup_ainsert]
  · simp [Clustering.get_cluster, alookup_ainsert]
  · simp [Clustering.get_category, alookup_ainsert]
  · simp [Clustering.are_together, Clustering.get_category, alookup_ainsert]
  · simp [Clustering.merge, Clustering.get_category, alookup_ainsert]

/-- Witness for claim C10 on the empty integer clustering with item 7. -/
theorem claim_C10_witness :
    Clustering.get_category (C := Nat) integer_clustering 7 = none ∧
    integer_clustering.gen integer_clustering.gen_pos = some 0 ∧
    (∃ cl2 : Clustering Nat Nat,
      integer_clustering.merge 7 7 = some (true, cl2) ∧
      cl2.get_cluster 0 = some (Cluster.with_member 0 7) ∧
      cl2.get_category 7 = some 0 ∧
      cl2.are_together 7 7 = true ∧
      cl2.merge 7 7 = some (false, cl2)) :=
  ⟨rfl, rfl, claim_C10_merge_unclustered_self integer_clustering 7 0 rfl rfl⟩

end ClaimC10

section ClaimC7

variable {C : Type} [DecidableEq C]

theorem count_cons_split (b a : C) (l : List C) :
    (a :: l).count b = l.count b + if b = a then 1 else 0 := by
  by_cases hba : b = a
  · subst hba
    rw [List.count_cons_self]
    simp
  · rw [List.count_cons_of_ne hba]
    simp [hba]

theorem sum_count_cons (a : C) (l : List C) : ∀ t : List C,
    (t.map (fun x => (a :: l).count x)).sum = (t.map (fun x => l.count x)).sum + t.count a
  | [] => by simp
  | b :: t => by
    have ih := sum_count_cons a l t
    simp only [List.map_cons, List.sum_cons]
    rw [ih, count_cons_split b a l, count_cons_split a b t]
    by_cases hba : b = a
    · subst hba; simp; omega
    · simp [hba, Ne.symm hba]; omega

theorem pair_matches_cons (a : C) (l : List C) :
    pair_matches (a :: l) = pair_matches l + 2 * l.count a + 1 := by
  unfold pair_matches
  simp only [List.map_cons, List.sum_cons]
  rw [sum_count_cons, List.count_cons_self]
  omega

theorem map_update_sum (m : C → Nat) (a : C) : ∀ l : List C,
    (l.map (fun c => if c = a then m a + 1 else m c)).sum = (l.map m).sum + l.count a
  | [] => by simp
  | b :: l => by
    have ih := map_update_sum m a l
    simp only [List.map_cons, List.sum_cons]
    rw [ih, count_cons_split a b l]
    by_cases hba : b = a
    · subst hba; simp; omega
    · simp [hba, Ne.symm hba]; omega

theorem tally_fold (l : List C) : ∀ (m : C → Nat) (s : Nat),
    (l.foldl tally_step (m, s)).2 = s + 2 * (l.map m).sum + pair_matches l := by
  induction l with
  | nil =>
    intro m s
    simp [pair_matches]
  | cons a l ih =>
    intro m s
    rw [List.foldl_cons]
    have hstep : tally_step (m, s) a
        = (fun c => if c = a then m a + 1 else m c, s + (2 * m a + 1)) := rfl
    rw [hstep, ih, map_update_sum, pair_matches_cons]
    simp only [List.map_cons, List.sum_cons]
    omega

theorem sq_cons (a : C) (l : List C) :
    sum_of_squared_counts (a :: l) = sum_of_squared_counts l + 2 * l.count a + 1 := by
  unfold sum_of_squared_counts
  rw [List.toFinset_cons]
  by_cases ha : a ∈ l.toFinset
  · rw [Finset.insert_eq_self.mpr ha]
    have key : ∀ x ∈ l.toFinset.erase a, ((a :: l).count x) ^ 2 = (l.count x) ^ 2 := by
      intro x hx
      have hxa : x ≠ a := (Finset.mem_erase.mp hx).1
      rw [List.count_cons_of_ne hxa]
    rw [← Finset.add_sum_erase l.toFinset (fun x => ((a :: l).count x) ^ 2) ha,
        ← Finset.add_sum_erase l.toFinset (fun x => (l.count x) ^ 2) ha,
        Finset.sum_congr rfl key, List.count_cons_self]
    ring
  · rw [Finset.sum_insert ha]
    have hal : a ∉ l := fun h => ha (List.mem_toFinset.mpr h)
    have hz : l.count a = 0 := List.count_eq_zero.mpr hal
    have key : ∀ x ∈ l.toFinset, ((a :: l).count x) ^ 2 = (l.count x) ^ 2 := by
      intro x hx
      have hxa : x ≠ a := fun h => hal (h ▸ List.mem_toFinset.mp hx)
      rw [List.count_cons_of_ne hxa]
    rw [Finset.sum_congr rfl key, List.count_cons_self, hz]
    ring

theorem sq_eq_pm (l : List C) : sum_of_squared_counts l = pair_matches l := by
  induction l with
  | nil => simp [sum_of_squared_counts, pair_matches]
  | cons a t ih => rw [sq_cons, pair_matches_cons, ih]

/-- Claim C7: for every finite sequence of category values, tally_squares
returns the sum over each distinct category of the square of its occurrence
count, which equals brute-force pairwise counting (the number of ordered
pairs of positions holding equal categories); the incremental rule — the
k-th occurrence of a value contributes 2(k-1)+1 — yields the same result.
In particular, a multiset with multiplicities [3, 2] yields 13. -/
theorem claim_C7_tally_squares :
    (∀ (C : Type) (inst : DecidableEq C) (l : List C),
        tally_squares l = sum_of_squared_counts l ∧ tally_squares l = pair_matches l) ∧
    tally_squares [0, 0, 0, 1, 1] = 13 := by
  constructor
  · intro C inst l
    have hpm : tally_squares l = pair_matches l := by
      unfold tally_squares
      rw [tally_fold]
      simp
    exact ⟨by rw [hpm, ← sq_eq_pm], hpm⟩
  · decide

end ClaimC7

section ClaimC6

theorem mem_le_max_pair (p : AdjacentPairDistance) :
    ∀ pairs : List AdjacentPairDistance, p ∈ pairs →
      p.square_distance ≤ max_pair_distance pairs
  | q :: t, hp => by
    have hmax : max_pair_distance (q :: t) = max q.square_distance (max_pair_distance t) := by
      simp [max_pair_distance]
    rcases List.mem_cons.mp hp with h | h
    · subst h
      rw [hmax]
      exact le_max_left _ _
    · rw [hmax]
      exact le_trans (mem_le_max_pair p t h) (le_max_right _ _)

theorem scan_no_change (cfg : SingleLinkage) (fid lsd : Nat) :
    ∀ (l : List AdjacentPairDistance) (st : Nat × LinkageResult),
      (∀ p ∈ l, ¬ p.square_distance > lsd ∧ p.second_id ≠ fid) →
      l.foldl (estimate_step cfg fid lsd) st = st
  | [], st, _ => rfl
  | p :: l, st, h => by
    rw [List.foldl_cons]
    have hp := h p (List.mem_cons_self p l)
    have hstep : estimate_step cfg fid lsd st p = st := by
      unfold estimate_step
      rw [if_neg hp.1, if_neg hp.2]
    rw [hstep]
    exact scan_no_change cfg fid lsd l st (fun q hq => h q (List.mem_cons_of_mem p hq))

/-- Claim C6: for every non-empty adjacent-pair-distance sequence whose
second point ids are distinct, estimate_cluster_counts with threshold equal
to the maximum square_distance plus one classifies the whole sequence as a
single run: large_cluster_count + outlier_cluster_count = 1 and
count_of_too_large_distances = 0. -/
theorem claim_C6_estimate_single_run (cfg : SingleLinkage)
    (pairs : List AdjacentPairDistance)
    (hne : pairs ≠ [])
    (hids : (pairs.map (fun p => p.second_id)).Nodup) :
    ∃ r, cfg.estimate_cluster_counts pairs (max_pair_distance pairs + 1) = some r ∧
      r.large_cluster_count + r.outlier_cluster_count = 1 ∧
      r.count_of_too_large_distances = 0 := by
  rcases List.eq_nil_or_concat pairs with h | ⟨l, a, rfl⟩
  · exact absurd h hne
  rw [List.concat_eq_append] at *
  have hmax : ∀ p ∈ l ++ [a], p.square_distance ≤ max_pair_distance (l ++ [a]) :=
    fun p hp => mem_le_max_pair p _ hp
  have hdisj : ∀ p ∈ l, p.second_id ≠ a.second_id := by
    intro p hp
    rw [List.map_append] at hids
    have := (List.nodup_append.mp hids).2.2
    intro heq
    exact this (List.mem_map_of_mem _ hp) (by simp [heq])
  unfold SingleLinkage.estimate_cluster_counts
  rw [if_neg (Nat.succ_ne_zero _), List.getLast?_concat]
  simp only
  rw [List.foldl_append]
  rw [scan_no_change cfg a.second_id (max_pair_distance (l ++ [a]) + 1) l _
    (fun p hp => ⟨by have := hmax p (List.mem_append_left _ hp); omega, hdisj p hp⟩)]
  simp only [List.foldl_cons, List.foldl_nil]
  unfold estimate_step
  rw [if_neg (by have := hmax a (List.mem_append_right _ (List.mem_singleton_self a)); omega)]
  rw [if_pos rfl]
  simp only
  split_ifs with hsize
  · exact ⟨_, rfl, by simp [LinkageResult.new], by simp [LinkageResult.new]⟩
  · exact ⟨_, rfl, by simp [LinkageResult.new], by simp [LinkageResult.new]⟩

/-- Witness for claim C6 on a two-pair sequence with maximum distance 9. -/
theorem claim_C6_witness :
    ([(⟨4, 0, 1, 10, 11⟩ : AdjacentPairDistance), ⟨9, 1, 2, 11, 12⟩] ≠ []) ∧
    (([(⟨4, 0, 1, 10, 11⟩ : AdjacentPairDistance), ⟨9, 1, 2, 11, 12⟩].map
        (fun p => p.second_id)).Nodup) ∧
    (∃ r, (SingleLinkage.new 3 4).estimate_cluster_counts
        [⟨4, 0, 1, 10, 11⟩, ⟨9, 1, 2, 11, 12⟩]
        (max_pair_distance [⟨4, 0, 1, 10, 11⟩, ⟨9, 1, 2, 11, 12⟩] + 1) = some r ∧
      r.large_cluster_count + r.outlier_cluster_count = 1 ∧
      r.count_of_too_large_distances = 0) :=
  ⟨by decide, by decide,
    claim_C6_estimate_single_run (SingleLinkage.new 3 4) _ (by decide) (by decide)⟩

end ClaimC6

section ClaimC1

theorem foldr_max_le {l : List Nat} {b : Nat} (h : ∀ x ∈ l, x ≤ b) : l.foldr max 0 ≤ b := by
  induction l with
  | nil => exact Nat.zero_le b
  | cons a t ih =>
    simp only [List.foldr_cons]
    exact max_le (h a (List.mem_cons_self a t)) (ih (fun x hx => h x (List.mem_cons_of_mem a hx)))

theorem le_foldr_max {l : List Nat} {x : Nat} (h : x ∈ l) : x ≤ l.foldr max 0 := by
  induction l with
  | nil => cases h
  | cons a t ih =>
    simp only [List.foldr_cons]
    rcases List.mem_cons.mp h with h | h
    · subst h; exact le_max_left _ _
    · exact le_trans (ih h) (le_max_right _ _)

/-- Sanity check of the embedding: floor_sqrt agrees with Mathlib's Nat.sqrt. -/
theorem floor_sqrt_eq (n : Nat) : floor_sqrt n = Nat.sqrt n := by
  unfold floor_sqrt
  apply le_antisymm
  · apply foldr_max_le
    intro x hx
    have := (List.mem_filter.mp hx).2
    exact Nat.le_sqrt.mpr (by simpa using this)
  · apply le_foldr_max
    rw [List.mem_filter]
    constructor
    · exact List.mem_range.mpr (Nat.lt_succ_of_le (Nat.sqrt_le_self n))
    · simpa using Nat.sqrt_le n

theorem step_preserves_lsd (cfg : SingleLinkage) (fid lsd : Nat)
    (st : Nat × LinkageResult) (p : AdjacentPairDistance) :
    ((estimate_step cfg fid lsd st p).2).linkage_square_distance
      = (st.2).linkage_square_distance := by
  simp only [estimate_step]
  split_ifs <;> rfl

theorem foldl_preserves_lsd (cfg : SingleLinkage) (fid lsd : Nat) :
    ∀ (l : List AdjacentPairDistance) (st : Nat × LinkageResult),
      (((l.foldl (estimate_step cfg fid lsd) st).2)).linkage_square_distance
        = (st.2).linkage_square_distance
  | [], st => rfl
  | p :: l, st => by
    rw [List.foldl_cons, foldl_preserves_lsd cfg fid lsd l _, step_preserves_lsd]

theorem estimate_some_lsd (cfg : SingleLinkage) (ds : List AdjacentPairDistance)
    (d : Nat) (r : LinkageResult)
    (h : cfg.estimate_cluster_counts ds d = some r) :
    r.linkage_square_distance = d ∧ 0 < d := by
  unfold SingleLinkage.estimate_cluster_counts at h
  by_cases hd : d = 0
  · rw [if_pos hd] at h
    exact absurd h (by simp)
  · rw [if_neg hd] at h
    cases hlast : ds.getLast? with
    | none => rw [hlast] at h; exact absurd h (by simp)
    | some a =>
      rw [hlast] at h
      simp only [Option.some_inj] at h
      subst h
      rw [foldl_preserves_lsd]
      exact ⟨rfl, Nat.pos_of_ne_zero hd⟩

/-- Claim C1: whenever SingleLinkage::find with the default configuration
returns a LinkageResult for a point set with at least two points, its
linkage_square_distance is strictly positive (the zero-threshold guard of
estimate_cluster_counts would otherwise have panicked) and is bounded by
the maximum of the adjacent-pair square distances, because the chosen sorted
index always selects an element of the distance list. On small point sets
the default configuration panics inside find_by_sorting before returning
(the subtraction points.len() - minimum_cluster_count underflows), which the
embedding reports as none; the claim speaks about the returned result. -/
theorem claim_C1_find_bounds (bits : Nat) (points : List Point) (r : LinkageResult)
    (hN : 2 ≤ points.length)
    (hfind : (SingleLinkage.new points.length bits).find points = some r) :
    0 < r.linkage_square_distance ∧
    r.linkage_square_distance ≤ max_pair_distance (all_pairs points) := by
  have hns : (SingleLinkage.new points.length bits).need_to_sort_by_hilbert_curve = false := rfl
  have hsc : (SingleLinkage.new points.length bits).sort_distances_completely = true := rfl
  unfold SingleLinkage.find at hfind
  rw [hns, hsc] at hfind
  simp only [Bool.false_eq_true, if_false, if_true] at hfind
  simp only [SingleLinkage.find_by_sorting] at hfind
  split at hfind
  · exact absurd hfind (by simp)
  split at hfind
  · exact absurd hfind (by simp)
  next idx hg =>
    split at hfind
    next hidx =>
      obtain ⟨hlsd, hpos⟩ := estimate_some_lsd _ _ _ _ hfind
      refine ⟨hlsd ▸ hpos, ?_⟩
      rw [hlsd]
      have hmem := List.get_mem
        (List.insertionSort (fun a b => apdLE a b = true) (all_pairs points)) idx hidx
      have hperm := List.perm_insertionSort (fun a b => apdLE a b = true) (all_pairs points)
      exact mem_le_max_pair _ _ (hperm.mem_iff.mp hmem)
    next hidx =>
      exact absurd hfind (by simp)

/-- Witness for claim C1 on twenty one-dimensional points with strictly
growing gaps: find returns linkage square distance 121, which is positive
and at most the maximum pair distance 361. -/
theorem claim_C1_witness :
    2 ≤ points20.length ∧
    (SingleLinkage.new points20.length 8).find points20 = some ⟨121, 8, 1, 8, 8⟩ ∧
    (0 < (121 : Nat) ∧ (121 : Nat) ≤ max_pair_distance (all_pairs points20)) :=
  ⟨by decide, by decide,
    claim_C1_find_bounds 8 points20 ⟨121, 8, 1, 8, 8⟩ (by decide) (by decide)⟩

end ClaimC1

section ClaimC2

variable {C M : Type} [DecidableEq C] [DecidableEq M]

theorem Cluster.mem_add_member (k : Cluster C M) (x m : M) :
    m ∈ (k.add_member x).members ↔ m = x ∨ m ∈ k.members := by
  unfold Cluster.add_member
  by_cases hx : x ∈ k.members
  · rw [if_pos hx]
    constructor
    · exact fun h => Or.inr h
    · rintro (h | h)
      · subst h; exact hx
      · exact h
  · rw [if_neg hx]
    simp [List.mem_cons]

theorem Cluster.add_member_ne_nil (k : Cluster C M) (x : M) :
    (k.add_member x).members ≠ [] := by
  intro h
  have : x ∈ (k.add_member x).members := (Cluster.mem_add_member k x x).mpr (Or.inl rfl)
  rw [h] at this
  cases this

theorem Cluster.mem_remove_member (k : Cluster C M) (x m : M) :
    m ∈ (k.remove_member x).members ↔ m ∈ k.members ∧ m ≠ x := by
  unfold Cluster.remove_member
  simp [List.mem_filter]

theorem alookup_foldl_ainsert (c1 : C) :
    ∀ (l : List M) (acc : List (M × C)) (x : M),
      alookup (l.foldl (fun acc m => ainsert acc m c1) acc) x
        = if x ∈ l then some c1 else alookup acc x
  | [], acc, x => by simp
  | m :: l, acc, x => by
    rw [List.foldl_cons, alookup_foldl_ainsert c1 l _ x]
    by_cases hxl : x ∈ l
    · rw [if_pos hxl, if_pos (List.mem_cons_of_mem m hxl)]
    · rw [if_neg hxl, alookup_ainsert]
      by_cases hxm : x = m
      · subst hxm
        rw [if_pos rfl, if_pos (List.mem_cons_self x l)]
      · rw [if_neg hxm, if_neg (by simp [List.mem_cons, hxm, hxl])]

theorem Cluster.mem_foldl_add :
    ∀ (l : List M) (k : Cluster C M) (m : M),
      m ∈ (l.foldl (fun k m => Cluster.add_member k m) k).members ↔ m ∈ k.members ∨ m ∈ l
  | [], k, m => by simp
  | x :: l, k, m => by
    rw [List.foldl_cons, Cluster.mem_foldl_add l _ m, Cluster.mem_add_member]
    constructor
    · rintro ((h | h) | h)
      · exact Or.inr (h ▸ List.mem_cons_self x l)
      · exact Or.inl h
      · exact Or.inr (List.mem_cons_of_mem x h)
    · rintro (h | h)
      · exact Or.inl (Or.inr h)
      · rcases List.mem_cons.mp h with h | h
        · exact Or.inl (Or.inl h)
        · exact Or.inr h

theorem Cluster.foldl_add_ne_nil (l : List M) (k : Cluster C M) (hk : k.members ≠ []) :
    (l.foldl (fun k m => Cluster.add_member k m) k).members ≠ [] := by
  obtain ⟨x, hx⟩ := List.exists_mem_of_ne_nil k.members hk
  exact List.ne_nil_of_mem ((Cluster.mem_foldl_add l k x).mpr (Or.inl hx))

theorem addNew_preserves {cl : Clustering C M} {item : M} {p : Except C C × Clustering C M}
    (hinv : ClusterInv cl) (hfresh : FreshGen cl)
    (h : cl.add_to_new_cluster item = some p) : ClusterInv p.2 ∧ FreshGen p.2 := by
  unfold Clustering.add_to_new_cluster at h
  cases hgc : cl.get_category item with
  | some c0 =>
    rw [hgc] at h
    simp only [Option.some_inj] at h
    subst h
    exact ⟨hinv, hfresh⟩
  | none =>
    rw [hgc] at h
    cases hgen : cl.gen cl.gen_pos with
    | none => rw [hgen] at h; exact absurd h (by simp)
    | some cat =>
      rw [hgen] at h
      simp only [Option.some_inj] at h
      subst h
      have hcatfresh : cl.get_cluster cat = none :=
        hfresh.1 cl.gen_pos cat (le_refl _) hgen
      have hcatfresh2 : alookup cl.clusters cat = none := hcatfresh
      refine ⟨⟨?_, ?_⟩, ?_, ?_⟩
      · intro m c
        simp only [Clustering.get_category, Clustering.get_cluster, alookup_ainsert]
        by_cases hm : m = item
        · subst hm
          rw [if_pos rfl]
          constructor
          · intro hc
            injection hc with hc
            subst hc
            exact ⟨_, by rw [if_pos rfl], by simp [Cluster.with_member]⟩
          · rintro ⟨k, hk, hmk⟩
            by_cases hcc : c = cat
            · subst hcc; rfl
            · rw [if_neg hcc] at hk
              exact absurd ((hinv.1 m c).mpr ⟨k, hk, hmk⟩) (by rw [hgc]; simp)
        · rw [if_neg hm]
          constructor
          · intro hc
            obtain ⟨k, hk, hmk⟩ := (hinv.1 m c).mp hc
            by_cases hcc : c = cat
            · exfalso
              have hk2 : alookup cl.clusters cat = some k := by rw [← hcc]; exact hk
              rw [hcatfresh2] at hk2
              cases hk2
            · exact ⟨k, by rw [if_neg hcc]; exact hk, hmk⟩
          · rintro ⟨k, hk, hmk⟩
            by_cases hcc : c = cat
            · subst hcc
              rw [if_pos rfl] at hk
              injection hk with hk
              subst hk
              simp [Cluster.with_member] at hmk
              exact absurd hmk hm
            · rw [if_neg hcc] at hk
              exact (hinv.1 m c).mpr ⟨k, hk, hmk⟩
      · intro c k hk
        simp only [Clustering.get_cluster, alookup_ainsert] at hk
        by_cases hcc : c = cat
        · subst hcc
          rw [if_pos rfl] at hk
          injection hk with hk
          subst hk
          simp [Cluster.with_member]
        · rw [if_neg hcc] at hk
          exact hinv.2 c k hk
      · intro k c hk hgenk
        have hk0 : cl.gen_pos ≤ k := by simp at hk ⊢; omega
        have hnone := hfresh.1 k c hk0 hgenk
        have hne : c ≠ cat := by
          intro hceq
          subst hceq
          exact (hfresh.2 cl.gen_pos k c (le_refl _) (by simp at hk; omega) hgen) hgenk
        simp only [Clustering.get_cluster, alookup_ainsert, if_neg hne]
        exact hnone
      · intro j k c hj hjk hgj
        exact hfresh.2 j k c (by simp at hj; omega) hjk hgj


theorem addTo_preserves {cl : Clustering C M} {item : M} {cat : C}
    {p : Except C C × Clustering C M}
    (hinv : ClusterInv cl) (hfresh : FreshGen cl)
    (h : cl.add_to_cluster item cat = some p) : ClusterInv p.2 ∧ FreshGen p.2 := by
  unfold Clustering.add_to_cluster at h
  cases hgc : cl.get_category item with
  | some c0 =>
    rw [hgc] at h
    simp only [Option.some_inj] at h
    subst h
    exact ⟨hinv, hfresh⟩
  | none =>
    rw [hgc] at h
    cases hk : cl.get_cluster cat with
    | none => rw [hk] at h; exact absurd h (by simp)
    | some bigk =>
      rw [hk] at h
      simp only [Option.some_inj] at h
      subst h
      have hk2 : alookup cl.clusters cat = some bigk := hk
      refine ⟨⟨?_, ?_⟩, ?_, ?_⟩
      · intro m c
        simp only [Clustering.get_category, Clustering.get_cluster, alookup_ainsert]
        by_cases hm : m = item
        · subst hm
          rw [if_pos rfl]
          constructor
          · intro hc
            injection hc with hc
            subst hc
            exact ⟨_, by rw [if_pos rfl],
              (Cluster.mem_add_member bigk m m).mpr (Or.inl rfl)⟩
          · rintro ⟨k, hkk, hmk⟩
            by_cases hcc : c = cat
            · rw [hcc]
            · rw [if_neg hcc] at hkk
              exact absurd ((hinv.1 m c).mpr ⟨k, hkk, hmk⟩) (by rw [hgc]; simp)
        · rw [if_neg hm]
          constructor
          · intro hc
            obtain ⟨k, hkk, hmk⟩ := (hinv.1 m c).mp hc
            by_cases hcc : c = cat
            · refine ⟨bigk.add_member item, by rw [if_pos hcc], ?_⟩
              have hkb : k = bigk := by
                have h1 : alookup cl.clusters cat = some k := by rw [← hcc]; exact hkk
                rw [hk2] at h1
                injection h1 with h1
                exact h1.symm
              exact (Cluster.mem_add_member bigk item m).mpr (Or.inr (hkb ▸ hmk))
            · exact ⟨k, by rw [if_neg hcc]; exact hkk, hmk⟩
          · rintro ⟨k, hkk, hmk⟩
            by_cases hcc : c = cat
            · rw [if_pos hcc] at hkk
              injection hkk with hkk
              subst hkk
              rcases (Cluster.mem_add_member bigk item m).mp hmk with h1 | h1
              · exact absurd h1 hm
              · have h2 := (hinv.1 m cat).mpr ⟨bigk, hk2, h1⟩
                rw [hcc]
                exact h2
            · rw [if_neg hcc] at hkk
              exact (hinv.1 m c).mpr ⟨k, hkk, hmk⟩
      · intro c k hkk
        simp only [Clustering.get_cluster, alookup_ainsert] at hkk
        by_cases hcc : c = cat
        · rw [if_pos hcc] at hkk
          injection hkk with hkk
          subst hkk
          exact Cluster.add_member_ne_nil bigk item
        · rw [if_neg hcc] at hkk
          exact hinv.2 c k hkk
      · intro k c hkp hgenk
        have hnone : cl.get_cluster c = none := hfresh.1 k c hkp hgenk
        have hnone2 : alookup cl.clusters c = none := hnone
        have hne : c ≠ cat := by
          intro hceq
          rw [hceq, hk2] at hnone2
          cases hnone2
        have hnone3 : alookup cl.clusters c = none := hfresh.1 k c hkp hgenk
        simp only [Clustering.get_cluster, alookup_ainsert, if_neg hne]
        exact hnone3
      · intro j k c hj hjk hgj
        exact hfresh.2 j k c hj hjk hgj


theorem remove_preserves {cl : Clustering C M} {item : M} {p : Bool × Clustering C M}
    (hinv : ClusterInv cl) (hfresh : FreshGen cl)
    (h : cl.remove_item item = some p) : ClusterInv p.2 ∧ FreshGen p.2 := by
  unfold Clustering.remove_item at h
  split at h
  next hgc =>
    simp only [Option.some_inj] at h
    subst h
    exact ⟨hinv, hfresh⟩
  next cat hgc =>
    split at h
    next hk => exact absurd h (by simp)
    next bigk hk =>
      have hgc2 : alookup cl.member_to_cluster item = some cat := hgc
      have hk2 : alookup cl.clusters cat = some bigk := hk
      rw [show (alookup cl.member_to_cluster item).isSome = true by rw [hgc2]; rfl] at h
      simp only [if_true] at h
      by_cases hE : (bigk.remove_member item).members.isEmpty = true
      · rw [if_pos hE] at h
        simp only [Option.some_inj] at h
        subst h
        have honly : ∀ m ∈ bigk.members, m = item := by
          intro m hm
          by_contra hne
          have hmem : m ∈ (bigk.remove_member item).members :=
            (Cluster.mem_remove_member bigk item m).mpr ⟨hm, hne⟩
          rw [List.isEmpty_iff.mp hE] at hmem
          cases hmem
        refine ⟨⟨?_, ?_⟩, ?_, ?_⟩
        · intro m c
          simp only [Clustering.get_category, Clustering.get_cluster, alookup_aerase]
          by_cases hm : m = item
          · rw [if_pos hm]
            constructor
            · intro hc; cases hc
            · rintro ⟨k, hkk, hmk⟩
              by_cases hcc : c = cat
              · rw [if_pos hcc] at hkk; cases hkk
              · rw [if_neg hcc] at hkk
                subst hm
                have hmc := (hinv.1 m c).mpr ⟨k, hkk, hmk⟩
                rw [hgc] at hmc
                injection hmc with hmc
                exact absurd hmc.symm hcc
          · rw [if_neg hm]
            constructor
            · intro hc
              obtain ⟨k, hkk, hmk⟩ := (hinv.1 m c).mp hc
              by_cases hcc : c = cat
              · exfalso
                have hkb : k = bigk := by
                  have h1 : alookup cl.clusters cat = some k := by rw [← hcc]; exact hkk
                  rw [hk2] at h1; injection h1 with h1; exact h1.symm
                exact hm (honly m (hkb ▸ hmk))
              · exact ⟨k, by rw [if_neg hcc]; exact hkk, hmk⟩
            · rintro ⟨k, hkk, hmk⟩
              by_cases hcc : c = cat
              · rw [if_pos hcc] at hkk; cases hkk
              · rw [if_neg hcc] at hkk
                exact (hinv.1 m c).mpr ⟨k, hkk, hmk⟩
        · intro c k hkk
          simp only [Clustering.get_cluster, alookup_aerase] at hkk
          by_cases hcc : c = cat
          · rw [if_pos hcc] at hkk; cases hkk
          · rw [if_neg hcc] at hkk
            exact hinv.2 c k hkk
        · intro k c hkp hgenk
          have hnone : alookup cl.clusters c = none := hfresh.1 k c hkp hgenk
          simp only [Clustering.get_cluster, alookup_aerase]
          by_cases hcc : c = cat
          · rw [if_pos hcc]
          · rw [if_neg hcc]; exact hnone
        · intro j k c hj hjk hgj
          exact hfresh.2 j k c hj hjk hgj
      · rw [if_neg hE] at h
        simp only [Option.some_inj] at h
        subst h
        have hE2 : (bigk.remove_member item).members ≠ [] := by
          intro hnil
          exact hE (by rw [List.isEmpty_iff]; exact hnil)
        refine ⟨⟨?_, ?_⟩, ?_, ?_⟩
        · intro m c
          simp only [Clustering.get_category, Clustering.get_cluster, alookup_aerase,
            alookup_ainsert]
          by_cases hm : m = item
          · rw [if_pos hm]
            constructor
            · intro hc; cases hc
            · rintro ⟨k, hkk, hmk⟩
              by_cases hcc : c = cat
              · rw [if_pos hcc] at hkk
                injection hkk with hkk
                subst hkk
                rw [Cluster.mem_remove_member] at hmk
                exact absurd hm hmk.2
              · rw [if_neg hcc] at hkk
                subst hm
                have hmc := (hinv.1 m c).mpr ⟨k, hkk, hmk⟩
                rw [hgc] at hmc
                injection hmc with hmc
                exact absurd hmc.symm hcc
          · rw [if_neg hm]
            constructor
            · intro hc
              obtain ⟨k, hkk, hmk⟩ := (hinv.1 m c).mp hc
              by_cases hcc : c = cat
              · have hkb : k = bigk := by
                  have h1 : alookup cl.clusters cat = some k := by rw [← hcc]; exact hkk
                  rw [hk2] at h1; injection h1 with h1; exact h1.symm
                refine ⟨bigk.remove_member item, by rw [if_pos hcc], ?_⟩
                rw [Cluster.mem_remove_member]
                exact ⟨hkb ▸ hmk, hm⟩
              · exact ⟨k, by rw [if_neg hcc]; exact hkk, hmk⟩
            · rintro ⟨k, hkk, hmk⟩
              by_cases hcc : c = cat
              · rw [if_pos hcc] at hkk
                injection hkk with hkk
                subst hkk
                rw [Cluster.mem_remove_member] at hmk
                have h2 := (hinv.1 m cat).mpr ⟨bigk, hk2, hmk.1⟩
                rw [hcc]
                exact h2
              · rw [if_neg hcc] at hkk
                exact (hinv.1 m c).mpr ⟨k, hkk, hmk⟩
        · intro c k hkk
          simp only [Clustering.get_cluster, alookup_ainsert] at hkk
          by_cases hcc : c = cat
          · rw [if_pos hcc] at hkk
            injection hkk with hkk
            subst hkk
            exact hE2
          · rw [if_neg hcc] at hkk
            exact hinv.2 c k hkk
        · intro k c hkp hgenk
          have hnone : alookup cl.clusters c = none := hfresh.1 k c hkp hgenk
          have hne : c ≠ cat := by
            intro hceq
            rw [hceq, hk2] at hnone
            cases hnone
          simp only [Clustering.get_cluster, alookup_ainsert, if_neg hne]
          exact hnone
        · intro j k c hj hjk hgj
          exact hfresh.2 j k c hj hjk hgj


theorem merge_preserves {cl : Clustering C M} {item1 item2 : M} {p : Bool × Clustering C M}
    (hinv : ClusterInv cl) (hfresh : FreshGen cl)
    (h : cl.merge item1 item2 = some p) : ClusterInv p.2 ∧ FreshGen p.2 := by
  unfold Clustering.merge at h
  split at h
  case _ c1 c2 hc1 hc2 =>
    by_cases hcc : c1 = c2
    · rw [if_pos hcc] at h
      simp only [Option.some_inj] at h
      subst h
      exact ⟨hinv, hfresh⟩
    · rw [if_neg hcc] at h
      split at h
      next hK2 => exact absurd h (by simp)
      next K2 hK2 =>
        split at h
        next hK1 => exact absurd h (by simp)
        next K1 hK1 =>
          simp only [Option.some_inj] at h
          subst h
          have hc1a : alookup cl.member_to_cluster item1 = some c1 := hc1
          have hc2a : alookup cl.member_to_cluster item2 = some c2 := hc2
          have hK1a : alookup cl.clusters c1 = some K1 := hK1
          have hK2a : alookup cl.clusters c2 = some K2 := hK2
          refine ⟨⟨?_, ?_⟩, ?_, ?_⟩
          · intro m c
            simp only [Clustering.get_category, Clustering.get_cluster,
              alookup_foldl_ainsert, alookup_aerase, alookup_ainsert]
            by_cases hm2 : m ∈ K2.members
            · rw [if_pos hm2]
              constructor
              · intro hc
                injection hc with hc
                subst hc
                refine ⟨_, ?_, (Cluster.mem_foldl_add K2.members K1 m).mpr (Or.inr hm2)⟩
                rw [if_neg hcc, if_pos rfl]
              · rintro ⟨k, hkk, hmk⟩
                by_cases hcc2 : c = c2
                · rw [if_pos hcc2] at hkk; cases hkk
                · rw [if_neg hcc2] at hkk
                  by_cases hcc1 : c = c1
                  · rw [hcc1]
                  · rw [if_neg hcc1] at hkk
                    have h1 := (hinv.1 m c).mpr ⟨k, hkk, hmk⟩
                    have h2 := (hinv.1 m c2).mpr ⟨K2, hK2a, hm2⟩
                    rw [h1] at h2
                    injection h2 with h2
                    exact absurd h2 hcc2
            · rw [if_neg hm2]
              constructor
              · intro hc
                obtain ⟨k, hkk, hmk⟩ := (hinv.1 m c).mp hc
                by_cases hcc2 : c = c2
                · exfalso
                  have hkb : k = K2 := by
                    have h1 : alookup cl.clusters c2 = some k := by rw [← hcc2]; exact hkk
                    rw [hK2a] at h1
                    injection h1 with h1
                    exact h1.symm
                  exact hm2 (hkb ▸ hmk)
                · by_cases hcc1 : c = c1
                  · refine ⟨_, by rw [if_neg hcc2, if_pos hcc1], ?_⟩
                    have hkb : k = K1 := by
                      have h1 : alookup cl.clusters c1 = some k := by rw [← hcc1]; exact hkk
                      rw [hK1a] at h1
                      injection h1 with h1
                      exact h1.symm
                    exact (Cluster.mem_foldl_add K2.members K1 m).mpr (Or.inl (hkb ▸ hmk))
                  · exact ⟨k, by rw [if_neg hcc2, if_neg hcc1]; exact hkk, hmk⟩
              · rintro ⟨k, hkk, hmk⟩
                by_cases hcc2 : c = c2
                · rw [if_pos hcc2] at hkk; cases hkk
                · rw [if_neg hcc2] at hkk
                  by_cases hcc1 : c = c1
                  · rw [if_pos hcc1] at hkk
                    injection hkk with hkk
                    subst hkk
                    rcases (Cluster.mem_foldl_add K2.members K1 m).mp hmk with h1 | h1
                    · have h2 := (hinv.1 m c1).mpr ⟨K1, hK1a, h1⟩
                      rw [hcc1]
                      exact h2
                    · exact absurd h1 hm2
                  · rw [if_neg hcc1] at hkk
                    exact (hinv.1 m c).mpr ⟨k, hkk, hmk⟩
          · intro c k hkk
            simp only [Clustering.get_cluster, alookup_aerase, alookup_ainsert] at hkk
            by_cases hcc2 : c = c2
            · rw [if_pos hcc2] at hkk; cases hkk
            · rw [if_neg hcc2] at hkk
              by_cases hcc1 : c = c1
              · rw [if_pos hcc1] at hkk
                injection hkk with hkk
                subst hkk
                exact Cluster.foldl_add_ne_nil K2.members K1 (hinv.2 c1 K1 hK1a)
              · rw [if_neg hcc1] at hkk
                exact hinv.2 c k hkk
          · intro kk c hkp hgenk
            have hnone : alookup cl.clusters c = none := hfresh.1 kk c hkp hgenk
            have hne1 : c ≠ c1 := by
              intro hceq
              rw [hceq, hK1a] at hnone
              cases hnone
            simp only [Clustering.get_cluster, alookup_aerase, alookup_ainsert]
            by_cases hcc2 : c = c2
            · rw [if_pos hcc2]
            · rw [if_neg hcc2, if_neg hne1]
              exact hnone
          · intro j k c hj hjk hgj
            exact hfresh.2 j k c hj hjk hgj
  case _ c1 hc1 hc2 =>
    split at h
    next cl2 hadd =>
      simp only [Option.some_inj] at h
      subst h
      exact addTo_preserves hinv hfresh hadd
    next hadd => exact absurd h (by simp)
  case _ c2 hc1 hc2 =>
    split at h
    next cl2 hadd =>
      simp only [Option.some_inj] at h
      subst h
      exact addTo_preserves hinv hfresh hadd
    next hadd => exact absurd h (by simp)
  case _ hc1 hc2 =>
    split at h
    next newcat cl1 hnew =>
      obtain ⟨hinv1, hfresh1⟩ := addNew_preserves hinv hfresh hnew
      split at h
      next res cl2 hadd =>
        simp only [Option.some_inj] at h
        subst h
        exact addTo_preserves hinv1 hfresh1 hadd
      next hadd => exact absurd h (by simp)
    next hnew => exact absurd h (by simp)


theorem move_preserves {cl : Clustering C M} {item : M} {new_category : C}
    {p : Bool × Clustering C M}
    (hinv : ClusterInv cl) (hfresh : FreshGen cl)
    (h : cl.move_item item new_category = some p) : ClusterInv p.2 ∧ FreshGen p.2 := by
  unfold Clustering.move_item at h
  split at h
  · simp only [Option.some_inj] at h
    subst h
    exact ⟨hinv, hfresh⟩
  · split at h
    next cur hcur =>
      split at h
      · simp only [Option.some_inj] at h
        subst h
        exact ⟨hinv, hfresh⟩
      · split at h
        next b cl1 hrem =>
          obtain ⟨hinv1, hfresh1⟩ := remove_preserves hinv hfresh hrem
          split at h
          next cl2 hadd =>
            simp only [Option.some_inj] at h
            subst h
            exact addTo_preserves hinv1 hfresh1 hadd
          next hadd => exact absurd h (by simp)
        next hrem => exact absurd h (by simp)
    next hcur =>
      split at h
      next cl2 hadd =>
        simp only [Option.some_inj] at h
        subst h
        exact addTo_preserves hinv hfresh hadd
      next hadd => exact absurd h (by simp)

/-- Claim C2: every mutating operation of Clustering (add_to_new_cluster,
add_to_cluster, merge, move_item, remove_item), when it completes without
panicking, preserves the invariant that the member-to-category map and the
category-to-Cluster map are mutually consistent and that no emptied Cluster
is retained. The FreshGen hypothesis is the data model's category-supplier
assumption (spec section 3, Lifecycle: categories are produced by a fresh-key
supplier and never reused while a cluster with that category is live); it is
itself preserved, so the invariant holds across arbitrary operation
sequences. -/
theorem claim_C2_operations_preserve_invariant {C M : Type}
    [DecidableEq C] [DecidableEq M]
    (op : ClusteringOp C M) (cl cl2 : Clustering C M)
    (hinv : ClusterInv cl) (hfresh : FreshGen cl)
    (happ : applyOp op cl = some cl2) :
    ClusterInv cl2 ∧ FreshGen cl2 := by
  cases op with
  | addNew item =>
    have happ2 : (cl.add_to_new_cluster item).map (fun p => p.2) = some cl2 := happ
    rcases hres : cl.add_to_new_cluster item with _ | q
    · rw [hres] at happ2; cases happ2
    · rw [hres] at happ2
      simp only [Option.map_some', Option.some_inj] at happ2
      subst happ2
      exact addNew_preserves hinv hfresh hres
  | addTo item category =>
    have happ2 : (cl.add_to_cluster item category).map (fun p => p.2) = some cl2 := happ
    rcases hres : cl.add_to_cluster item category with _ | q
    · rw [hres] at happ2; cases happ2
    · rw [hres] at happ2
      simp only [Option.map_some', Option.some_inj] at happ2
      subst happ2
      exact addTo_preserves hinv hfresh hres
  | mergeItems item1 item2 =>
    have happ2 : (cl.merge item1 item2).map (fun p => p.2) = some cl2 := happ
    rcases hres : cl.merge item1 item2 with _ | q
    · rw [hres] at happ2; cases happ2
    · rw [hres] at happ2
      simp only [Option.map_some', Option.some_inj] at happ2
      subst happ2
      exact merge_preserves hinv hfresh hres
  | moveItem item category =>
    have happ2 : (cl.move_item item category).map (fun p => p.2) = some cl2 := happ
    rcases hres : cl.move_item item category with _ | q
    · rw [hres] at happ2; cases happ2
    · rw [hres] at happ2
      simp only [Option.map_some', Option.some_inj] at happ2
      subst happ2
      exact move_preserves hinv hfresh hres
  | removeItem item =>
    have happ2 : (cl.remove_item item).map (fun p => p.2) = some cl2 := happ
    rcases hres : cl.remove_item item with _ | q
    · rw [hres] at happ2; cases happ2
    · rw [hres] at happ2
      simp only [Option.map_some', Option.some_inj] at happ2
      subst happ2
      exact remove_preserves hinv hfresh hres

/-- Witness for claim C2: applying merge(1, 2) to the empty integer
clustering yields a clustering that still satisfies the invariant. -/
theorem claim_C2_witness :
    ClusterInv (C := Nat) (M := Nat) integer_clustering ∧
    FreshGen (C := Nat) (M := Nat) integer_clustering ∧
    applyOp (ClusteringOp.mergeItems 1 2) integer_clustering
      = some ⟨[(2, 0), (1, 0)], [(0, ⟨0, [2, 1]⟩)], fun n => some n, 1⟩ ∧
    ClusterInv (⟨[(2, 0), (1, 0)], [(0, ⟨0, [2, 1]⟩)], fun n => some n, 1⟩ :
      Clustering Nat Nat) := by
  have hinv : ClusterInv (C := Nat) (M := Nat) integer_clustering := by
    constructor
    · intro m c
      simp [Clustering.get_category, Clustering.get_cluster, integer_clustering,
        Clustering.empty, alookup]
    · intro c k hk
      simp [Clustering.get_cluster, integer_clustering, Clustering.empty, alookup] at hk
  have hfresh : FreshGen (C := Nat) (M := Nat) integer_clustering := by
    constructor
    · intro k c _ _
      rfl
    · intro j k c hj hjk hgj hgk
      injection hgj with hgj
      injection hgk with hgk
      omega
  refine ⟨hinv, hfresh, by rfl, ?_⟩
  exact (claim_C2_operations_preserve_invariant (ClusteringOp.mergeItems 1 2)
    integer_clustering _ hinv hfresh (by rfl)).1

end ClaimC2
